import Mathlib

/-
Verification development for the Cochlear_Navigation repository.

The repository computes a parametric 3D cochlea model from a 4-element
shape-parameter vector (A1, B1, A2, B2): fixed regression-coefficient
tables map the parameters to a radius polynomial, a height polynomial and
a total-spiral-angle estimate; from these the code derives a centerline,
a tubular surface, circular cross-sections and arc lengths.

The embedding below follows the Python sources:
  cochlea_parameters.py : coefficient tables, parameter generation,
                          validation, save/load of parameters;
  cochlea_model.py      : CochleaModel (derived quantities, geometry,
                          cross-sections, point query, arc length);
  cochlea_export.py     : the export path's per-section tangent frame,
                          tube radius and ring points.

Modelling conventions: Python floats are embedded as exact rationals
(all literals in the sources are decimal literals) where the computation
is rational, and as real numbers where pi, trigonometry, square roots or
integration enter.  numpy primitives are embedded by their documented
exact-arithmetic semantics: np.arange(start, stop, step) yields
ceil((stop - start)/step) samples (clamped at zero), np.linspace includes
both endpoints, np.polyval is Horner evaluation of a highest-degree-first
coefficient list, np.dot of lists is the sum of pairwise products, and
np.linalg.norm of a 3-vector is the square root of the sum of squares.
Random draws (np.random.normal) are supplied to the embedding as oracle
arguments.  The parameter file of np.savetxt / np.loadtxt is modelled at
the digit level: a written value is its sign together with the base-10
digits of its integer part and its six rounded fractional digits, which
is exactly the information content of the "%.6f" text.
-/

/-! ## Parameter module (cochlea_parameters.py) : exact rational layer -/

/-- Shape parameters (A1, B1, A2, B2), the four anatomical inputs. -/
structure ShapeParams where
  A1 : ℚ
  B1 : ℚ
  A2 : ℚ
  B2 : ℚ

/-- Coefficient table coefs of height (5 rows of 5), from
_initialize_coefficients in cochlea_parameters.py. -/
def height_table : List (List ℚ) :=
  [ [-2.025562262381, 0.308684774745994, -0.0245970612199774, 0.00093743547596123, -6.49142944919421e-06],
    [-0.483933701821246, 0.150263587271025, -0.0249700764778651, 0.00184112837255666, -4.68696577096306e-05],
    [0.0936906993853392, 0.0485929242340616, -0.0111388827166082, 0.000852542615496957, -2.39666478178502e-05],
    [0.437215616236419, -0.609467318753365, 0.147019129524084, -0.012345472153677, 0.000341806092537278],
    [0.19884386428529, 0.0706538846984097, -0.0490269768729332, 0.00553612473205947, -0.000178036145575138] ]

/-- Coefficient table coefs of modiolus (5 rows of 4). -/
def modiolus_table : List (List ℚ) :=
  [ [-0.0972007477234853, 0.0652777719428317, 0.00579010295961996, -0.000410053336041606],
    [0.745407586062517, -0.297795950930632, 0.0353079060718429, -0.00125774660897636],
    [0.349940654425921, -0.0488173880945223, 0.00235713329581525, -3.38189250648794e-05],
    [0.0567728210841444, 0.115930983938798, -0.0170603835499829, 0.000605305012135639],
    [-0.0613995454924607, 0.170502985259421, -0.0267552502171719, 0.00111572946871731] ]

/-- Coefficient vector coefs of turns (5 entries). -/
def turns_vec : List ℚ :=
  [963.166310413576, 6.37772934525638, -26.9585473096045, -36.3953582023656, 66.9416454453684]

/-- Correlation matrix built (and then discarded) by generate_parameters
in random mode; kept here to document the source faithfully. -/
def correlation_matrix : List (List ℚ) :=
  [ [1.0, 0.53476, -0.12441, -0.07296],
    [0.53476, 1.0, 0.11668, -0.43748],
    [-0.12441, 0.11668, 1.0, 0.57846],
    [-0.07296, -0.43748, 0.57846, 1.0] ]

/-- Dot product of two lists, the semantics of np.dot on 1-D arrays. -/
def dotL (xs ys : List ℚ) : ℚ := (List.zipWith (fun a b => a * b) xs ys).sum

/-- Column i of a row-major table, the semantics of table[:, i]. -/
def tableCol (t : List (List ℚ)) (i : ℕ) : List ℚ := t.map (fun row => row.getD i 0)

/-- The augmented vector np.append(1, self.A). -/
def augParams (P : ShapeParams) : List ℚ := [1, P.A1, P.B1, P.A2, P.B2]

/-- CochleaModel._turn_number_estimation: dot of (1, A) with the turns
coefficients, divided by 360. -/
def turn_number_estimation (P : ShapeParams) : ℚ := dotL (augParams P) turns_vec / 360

/-- Radius polynomial coefficients in the order they are built
(coefficient of phi^i at list index i), before the reversal. -/
def radius_coeffs_low (P : ShapeParams) : List ℚ :=
  (List.range 4).map (fun i => dotL (augParams P) (tableCol modiolus_table i))

/-- CochleaModel.get_radius_coeffs: the reversed (highest-degree-first)
radius coefficient list handed to np.polyval. -/
def get_radius_coeffs (P : ShapeParams) : List ℚ := (radius_coeffs_low P).reverse

/-- Height polynomial coefficients, coefficient of phi^i at index i. -/
def height_coeffs_low (P : ShapeParams) : List ℚ :=
  (List.range 5).map (fun i => dotL (augParams P) (tableCol height_table i))

/-- CochleaModel.get_height_coeffs: reversed height coefficient list. -/
def get_height_coeffs (P : ShapeParams) : List ℚ := (height_coeffs_low P).reverse

/-- Anatomical bounds table of validate_parameters, in field order. -/
def paramBounds : List (String × ℚ × ℚ) :=
  [("A1", 4.0, 8.0), ("B1", 2.5, 5.5), ("A2", 2.0, 4.5), ("B2", 1.5, 4.0)]

/-- The out-of-bounds message of validate_parameters (the f-string of
cochlea_parameters.py line 105). -/
def boundsMsg (nm : String) (v lo hi : ℚ) : String :=
  nm ++ " = " ++ toString v ++ " is outside reasonable bounds [" ++
    toString lo ++ ", " ++ toString hi ++ "]"

/-- The per-field loop of validate_parameters over the zipped
(name, bounds) / value pairs: first violation raises, else True. -/
def checkBounds : List ((String × ℚ × ℚ) × ℚ) → Except String Bool
  | [] => Except.ok true
  | ((nm, lo, hi), v) :: rest =>
      if lo ≤ v ∧ v ≤ hi then checkBounds rest
      else Except.error (boundsMsg nm v lo hi)

/-- CochleaParameters.validate_parameters: arity check then bounds loop.
A raised ValueError is embedded as Except.error with the message. -/
def validate_parameters (parameters : List ℚ) : Except String Bool :=
  if parameters.length ≠ 4 then Except.error "Parameters must be a 4-element array"
  else checkBounds (List.zip paramBounds parameters)

/-- Anatomical means used by generate_parameters. -/
def paramMeans : List ℚ := [5.97, 3.95, 3.26, 2.85]

/-- Standard deviations used by generate_parameters in random mode. -/
def paramStds : List ℚ := [0.36, 0.35, 0.28, 0.33]

/-- CochleaParameters.generate_parameters.  The random draws of
np.random.normal(0, 1) are supplied by the oracle normalDraws; drawing
np.random.normal(mean, std) is mean + std * g for a standard-normal g.
The correlated multivariate draw and the per-index uniform_value draw of
the source are computed and then discarded, so they do not appear in the
result.  The source message is "Mode must be 'mean' or 'random'"; the
quotes are dropped here. -/
def generate_parameters (mode : String) (normalDraws : ℕ → ℚ) : Except String (List ℚ) :=
  if mode = "mean" then
    Except.ok [5.97, 3.95, 3.26, 2.85]
  else if mode = "random" then
    Except.ok ((List.range 4).map (fun i => paramMeans.getD i 0 + paramStds.getD i 0 * normalDraws i))
  else
    Except.error "Mode must be mean or random"

/-- CochleaModel.__init__, parameter-selection part: with parameters=None
the generated vector is used as is (no validation); with an explicit
vector, validate_parameters runs first.  The result is the accepted
parameter list self.A. -/
def cochlea_model_init (parameters : Option (List ℚ)) (mode : String)
    (normalDraws : ℕ → ℚ) : Except String (List ℚ) :=
  match parameters with
  | none => generate_parameters mode normalDraws
  | some p => (validate_parameters p).map (fun _ => p)

/-- View a 4-element parameter list as named shape parameters. -/
def toParams (l : List ℚ) : ShapeParams :=
  ⟨l.getD 0 0, l.getD 1 0, l.getD 2 0, l.getD 3 0⟩

/-- The fixed mean parameter vector, as named fields. -/
def meanParams : ShapeParams := ⟨5.97, 3.95, 3.26, 2.85⟩

/-- Bounds predicate on named parameters: every field inside its
anatomical range, endpoints included. -/
abbrev InBounds (P : ShapeParams) : Prop :=
  4 ≤ P.A1 ∧ P.A1 ≤ 8 ∧ 2.5 ≤ P.B1 ∧ P.B1 ≤ 5.5 ∧
    2 ≤ P.A2 ∧ P.A2 ≤ 4.5 ∧ 1.5 ≤ P.B2 ∧ P.B2 ≤ 4

/-- Bounds predicate on a raw parameter list: exactly 4 values, each
inside its range, endpoints included. -/
abbrev inBoundsList (l : List ℚ) : Prop :=
  l.length = 4 ∧ 4 ≤ l.getD 0 0 ∧ l.getD 0 0 ≤ 8 ∧ 2.5 ≤ l.getD 1 0 ∧ l.getD 1 0 ≤ 5.5 ∧
    2 ≤ l.getD 2 0 ∧ l.getD 2 0 ≤ 4.5 ∧ 1.5 ≤ l.getD 3 0 ∧ l.getD 3 0 ≤ 4

/-! ## Parameter file (save_parameters / load_parameters)

np.savetxt(filename, parameters, fmt="%.6f", header="A1, B1, A2, B2",
delimiter=",", comments="# ") writes one header comment line and then one
value per line, each rendered with six fractional digits; np.loadtxt
skips comment lines and parses the numbers back.  A line is modelled by
its information content: either a comment, or a sign with the base-10
digits (little-endian, as Nat.digits produces them) of the integer part
and the six rounded fractional digits. -/

/-- One line of the parameter file. -/
inductive FileLine where
  | comment (text : String)
  | value (neg : Bool) (intDigits : List ℕ) (fracDigits : List ℕ)

/-- Format one value as "%.6f" does: round the magnitude to six decimal
places and keep sign, integer digits and six fractional digits. -/
def writeFixed6 (q : ℚ) : FileLine :=
  let n : ℕ := (round (|q| * 1000000)).toNat
  let frac := Nat.digits 10 (n % 1000000)
  FileLine.value (decide (q < 0)) (Nat.digits 10 (n / 1000000))
    (frac ++ List.replicate (6 - frac.length) 0)

/-- Parse one line back, as np.loadtxt does: comments yield nothing, a
value line yields its decimal value. -/
def readValue : FileLine → Option ℚ
  | FileLine.comment _ => none
  | FileLine.value neg ds fs =>
      let v : ℚ := (Nat.ofDigits 10 ds : ℕ) + ((Nat.ofDigits 10 fs : ℕ) : ℚ) / 1000000
      some (if neg then -v else v)

/-- CochleaParameters.save_parameters: header comment line then one
formatted value per parameter, in order. -/
def save_parameters (parameters : List ℚ) : List FileLine :=
  FileLine.comment "A1, B1, A2, B2" :: parameters.map writeFixed6

/-- CochleaParameters.load_parameters: parse every non-comment line, in
file order. -/
def load_parameters (file : List FileLine) : List ℚ := file.filterMap readValue

/-- The value actually written by "%.6f": the input rounded to six
decimal places. -/
def round6 (q : ℚ) : ℚ := (round (q * 1000000) : ℤ) / 1000000

/-! ## Geometry engine (cochlea_model.py) : real-valued layer -/

noncomputable section

open Real

/-- np.polyval: Horner evaluation of a highest-degree-first coefficient
list. -/
def polyval (cs : List ℝ) (x : ℝ) : ℝ := cs.foldl (fun acc c => acc * x + c) 0

/-- Cast a rational coefficient list to the reals. -/
def castList (l : List ℚ) : List ℝ := l.map (fun q : ℚ => (q : ℝ))

/-- np.polyder on a highest-degree-first list [c0, ..., c_(m-1)] of
length m: [(m-1)*c0, (m-2)*c1, ..., 1*c_(m-2)]. -/
def polyder (cs : List ℝ) : List ℝ :=
  List.zipWith (fun (k : ℕ) (c : ℝ) => (k : ℝ) * c)
    (((List.range (cs.length - 1)).reverse).map (fun k => k + 1)) cs.dropLast

/-- CochleaModel._radius_modiolus_poly: radius from the modiolus axis at
spiral angle phi. -/
def radius_modiolus_poly (P : ShapeParams) (phi : ℝ) : ℝ :=
  polyval (castList (get_radius_coeffs P)) phi

/-- CochleaModel._height_poly: height at spiral angle phi. -/
def height_poly (P : ShapeParams) (phi : ℝ) : ℝ :=
  polyval (castList (get_height_coeffs P)) phi

/-- CochleaModel.c_length: turn estimate times 2 pi, the total spiral
angle. -/
def c_length (P : ShapeParams) : ℝ := (turn_number_estimation P : ℝ) * 2 * Real.pi

/-- CochleaModel.n_turns: total spiral angle divided by 2 pi. -/
def n_turns (P : ShapeParams) : ℝ := c_length P / (2 * Real.pi)

/-- The spec-side polynomial value: the plain monomial sum of a
lowest-degree-first coefficient list.  Used to compare the code's
Horner-of-reversed-list evaluation against the spec's polynomial. -/
def specPolySum (l : List ℚ) (x : ℝ) : ℝ :=
  ∑ i ∈ Finset.range l.length, ((l.getD i 0 : ℚ) : ℝ) * x ^ i

/-- Integrand of CochleaModel.calculate_length: the speed of the
centerline curve, with or without the height term. -/
def length_integrand (P : ShapeParams) (with_height : Bool) (z : ℝ) : ℝ :=
  let r := radius_modiolus_poly P z
  let dr_dz := polyval (polyder (castList (get_radius_coeffs P))) z
  let x_deriv := dr_dz * Real.cos z - r * Real.sin z
  let y_deriv := dr_dz * Real.sin z + r * Real.cos z
  if with_height then
    Real.sqrt (x_deriv ^ 2 + y_deriv ^ 2 +
      (polyval (polyder (castList (get_height_coeffs P))) z) ^ 2)
  else
    Real.sqrt (x_deriv ^ 2 + y_deriv ^ 2)

/-- CochleaModel.calculate_length: quad integral of the speed over
phi from 0 to c_length. -/
def calculate_length (P : ShapeParams) (with_height : Bool) : ℝ :=
  ∫ z in (0:ℝ)..(c_length P), length_integrand P with_height z

/-- np.arange(start, stop, step): ceil((stop - start)/step) samples
(none when that is not positive), start + i * step each. -/
def arange (start stop step : ℝ) : List ℝ :=
  (List.range (⌈(stop - start) / step⌉.toNat)).map (fun i : ℕ => start + (i : ℝ) * step)

/-- np.linspace(start, stop, num): num evenly spaced samples including
both endpoints (for num = 1 numpy returns [start]). -/
def linspace (start stop : ℝ) (num : ℕ) : List ℝ :=
  if num = 0 then []
  else if num = 1 then [start]
  else (List.range num).map (fun i : ℕ => start + (stop - start) * (i : ℝ) / ((num : ℝ) - 1))

/-- A 3-vector, the embedding of a length-3 numpy array. -/
structure Vec3 where
  x : ℝ
  y : ℝ
  z : ℝ

/-- np.cross of two 3-vectors. -/
def cross3 (a b : Vec3) : Vec3 :=
  ⟨a.y * b.z - a.z * b.y, a.z * b.x - a.x * b.z, a.x * b.y - a.y * b.x⟩

/-- Dot product of two 3-vectors. -/
def dot3 (a b : Vec3) : ℝ := a.x * b.x + a.y * b.y + a.z * b.z

/-- np.linalg.norm of a 3-vector. -/
def norm3 (v : Vec3) : ℝ := Real.sqrt (v.x ^ 2 + v.y ^ 2 + v.z ^ 2)

/-- v / np.linalg.norm(v), componentwise. -/
def normalize3 (v : Vec3) : Vec3 := ⟨v.x / norm3 v, v.y / norm3 v, v.z / norm3 v⟩

/-- Componentwise sum. -/
def vadd (a b : Vec3) : Vec3 := ⟨a.x + b.x, a.y + b.y, a.z + b.z⟩

/-- Scalar multiple. -/
def vsmul (c : ℝ) (v : Vec3) : Vec3 := ⟨c * v.x, c * v.y, c * v.z⟩

/-- Result record of CochleaModel.generate_geometry.  The scala surface
arrays scala_x, scala_y, scala_z (indexed [j, i] by circumferential
angle j and spiral sample i) are combined into one row-per-angle list of
point lists. -/
structure Geometry where
  centerline : List Vec3
  scala : List (List Vec3)
  phi : List ℝ
  turns : List ℝ
  r_modiolus : List ℝ

/-- CochleaModel.generate_geometry: half-open phi sampling at the given
resolution, centerline points, and the scala surface built from the
linearly tapering tube radius (c_length - p) / c_length * 0.5 + 0.6. -/
def generate_geometry (P : ShapeParams) (resolution : ℝ) : Geometry :=
  let phi := arange 0 (c_length P) resolution
  let r_modiolus := phi.map (radius_modiolus_poly P)
  let centerline := phi.map (fun p =>
    ⟨radius_modiolus_poly P p * Real.cos p,
     radius_modiolus_poly P p * Real.sin p,
     height_poly P p⟩)
  let v := arange 0 (2 * Real.pi) resolution
  let scala := v.map (fun ang => phi.map (fun p =>
    let r_scala := (c_length P - p) / c_length P * 0.5 + 0.6
    let local_r := radius_modiolus_poly P p + r_scala * (Real.cos ang - 1)
    (⟨local_r * Real.cos p, local_r * Real.sin p,
      r_scala * Real.sin ang + height_poly P p⟩ : Vec3)))
  { centerline := centerline, scala := scala, phi := phi,
    turns := phi.map (fun p => p / (2 * Real.pi)), r_modiolus := r_modiolus }

/-- CochleaModel.get_point_at_position: the point query.  The source
performs no range check on turn_fraction; it evaluates the model at
phi = turn_fraction * c_length whatever the input. -/
structure PointResult where
  position : Vec3
  radius_modiolus : ℝ
  height : ℝ
  phi : ℝ
  turns : ℝ

/-- CochleaModel.get_point_at_position. -/
def get_point_at_position (P : ShapeParams) (turn_fraction : ℝ) : PointResult :=
  let phi := turn_fraction * c_length P
  let r := radius_modiolus_poly P phi
  { position := ⟨r * Real.cos phi, r * Real.sin phi, height_poly P phi⟩,
    radius_modiolus := r,
    height := height_poly P phi,
    phi := phi,
    turns := phi / (2 * Real.pi) }

/-- Truncation toward zero, the semantics of numpy dtype=int conversion
and of Python int() on a rational value. -/
def truncQ (q : ℚ) : ℤ := if q < 0 then -⌊-q⌋ else ⌊q⌋

/-- np.linspace(0, stop, num, dtype=int): the linspace values truncated
toward zero. -/
def linspace_int (stop : ℤ) (num : ℕ) : List ℤ :=
  if num = 0 then []
  else if num = 1 then [0]
  else (List.range num).map (fun i : ℕ => truncQ ((stop : ℚ) * (i : ℚ) / ((num : ℚ) - 1)))

/-- One cross-section record of CochleaModel.generate_cross_sections. -/
structure CrossSection where
  center : Vec3
  radius : ℝ
  angle : ℝ
  phi : ℝ
  points : List Vec3

/-- CochleaModel.generate_cross_sections on an already generated
geometry: sections at integer positions evenly spaced over the first
half of the samples, each a 17-point closed ring in the
(radial, height) plane at its phi.  List indexing out of range is
embedded with default values (the source would raise IndexError). -/
def generate_cross_sections (P : ShapeParams) (geometry : Geometry)
    (num_sections : ℕ) : List CrossSection :=
  let half_idx : ℕ := geometry.phi.length / 2
  let section_indices := linspace_int ((half_idx : ℤ) - 1) num_sections
  section_indices.map (fun idx =>
    let phi := geometry.phi.getD idx.toNat 0
    let center := geometry.centerline.getD idx.toNat ⟨0, 0, 0⟩
    let radius := (c_length P - phi) / c_length P * 0.5 + 0.6
    let angles := linspace 0 (2 * Real.pi) (16 + 1)
    { center := center, radius := radius, angle := phi * 180 / Real.pi, phi := phi,
      points := angles.map (fun a =>
        let local_r := radius * (Real.cos a - 1)
        let local_h := radius * Real.sin a
        ⟨center.x + local_r * Real.cos phi,
         center.y + local_r * Real.sin phi,
         center.z + local_h⟩) })

/-! ## Export path (cochlea_export.py) -/

/-- The perpendicular-frame construction of CochleaExporter.export_csv
(lines 158-164): cross the world Z axis with the tangent unless the
tangent's Z component has magnitude at least 0.9, in which case cross
the world X axis instead; normalize; the second perpendicular is the
normalized cross of tangent and first perpendicular. -/
def make_perpendiculars (tangent : Vec3) : Vec3 × Vec3 :=
  let p1 := if |tangent.z| < 0.9 then cross3 ⟨0, 0, 1⟩ tangent else cross3 ⟨1, 0, 0⟩ tangent
  let perp1 := normalize3 p1
  let perp2 := normalize3 (cross3 tangent perp1)
  (perp1, perp2)

/-- One exported cross-section of CochleaExporter.export_csv. -/
structure ExportSection where
  center : Vec3
  radius : ℝ
  phi : ℝ
  tangent : Vec3
  perp1 : Vec3
  perp2 : Vec3
  points : List Vec3

/-- The cross-section part of CochleaExporter.export_csv: sections at
fractional positions evenly spaced over the full phi range, each with
the linearly tapering tube radius, a finite-difference tangent (forward
difference, backward at the last sample), the perpendicular frame and a
61-point closed ring.  The mm-to-cm output scaling of the written text
is not part of the geometric data and is omitted. -/
def export_cross_sections (P : ShapeParams) (geometry : Geometry)
    (centerline_mode : String) (num_cross_sections : ℕ) : List ExportSection :=
  let section_positions := linspace 0 1 num_cross_sections
  section_positions.map (fun position =>
    let idx0 : ℕ := (⌊position * ((geometry.phi.length : ℝ) - 1)⌋).toNat
    let phi := geometry.phi.getD idx0 0
    let center := geometry.centerline.getD idx0 ⟨0, 0, 0⟩
    let radius := (c_length P - phi) / c_length P * 0.5 + 0.6
    let pair := if idx0 < geometry.phi.length - 1 then (idx0, idx0 + 1) else (idx0 - 1, idx0)
    let ci := geometry.centerline.getD pair.1 ⟨0, 0, 0⟩
    let cn := geometry.centerline.getD pair.2 ⟨0, 0, 0⟩
    let tangent_raw : Vec3 :=
      if centerline_mode = "3D" then ⟨cn.x - ci.x, cn.y - ci.y, cn.z - ci.z⟩
      else ⟨cn.x - ci.x, cn.y - ci.y, 0⟩
    let tangent := normalize3 tangent_raw
    let frame := make_perpendiculars tangent
    let angles := linspace 0 (2 * Real.pi) (60 + 1)
    { center := center, radius := radius, phi := phi, tangent := tangent,
      perp1 := frame.1, perp2 := frame.2,
      points := angles.map (fun a =>
        let local_x := radius * Real.cos a
        let local_y := radius * Real.sin a
        let base : Vec3 := if centerline_mode = "2D" then ⟨center.x, center.y, 0⟩ else center
        vadd (vadd base (vsmul local_x frame.1)) (vsmul local_y frame.2)) })

/-- The spec-side tube radius: linear taper from 1.1 at the base to 0.6
at the apex. -/
def tubeRadiusSpec (P : ShapeParams) (phi : ℝ) : ℝ :=
  (c_length P - phi) / c_length P * 0.5 + 0.6

/-- Height polynomial is non-constant: some coefficient of positive
degree is nonzero. -/
abbrev heightNonConstant (P : ShapeParams) : Prop :=
  ∃ i, 1 ≤ i ∧ i < 5 ∧ (height_coeffs_low P).getD i 0 ≠ 0

end

/-! ## Helper lemmas -/

theorem turns_dot_pos (P : ShapeParams) (hb : InBounds P) :
    0 < dotL (augParams P) turns_vec := by
  obtain ⟨h1, h2, h3, h4, h5, h6, h7, h8⟩ := hb
  simp only [dotL, augParams, turns_vec, List.zipWith, List.sum_cons, List.sum_nil]
  nlinarith

theorem turn_number_estimation_pos (P : ShapeParams) (hb : InBounds P) :
    0 < turn_number_estimation P := by
  have := turns_dot_pos P hb
  unfold turn_number_estimation
  positivity

theorem c_length_pos (P : ShapeParams) (hb : InBounds P) : 0 < c_length P := by
  have h := turn_number_estimation_pos P hb
  have hπ := Real.pi_pos
  have hq : (0 : ℝ) < (turn_number_estimation P : ℚ) := by exact_mod_cast h
  unfold c_length
  positivity

/-! ## C1 -/

/-- C1: for every in-bounds parameter vector the total spiral angle
c_length is strictly positive, the turn count n_turns equals
c_length / (2 pi), and c_length is the dot product of (1, A1, B1, A2, B2)
with the fixed turns coefficients, divided by 360 and multiplied by
2 pi. -/
theorem total_angle_pos_and_turn_count (P : ShapeParams) (hb : InBounds P) :
    0 < c_length P ∧ n_turns P = c_length P / (2 * Real.pi) ∧
      c_length P = ((dotL (augParams P) turns_vec : ℚ) : ℝ) / 360 * (2 * Real.pi) := by
  refine ⟨c_length_pos P hb, rfl, ?_⟩
  unfold c_length turn_number_estimation
  push_cast
  ring

/-- C1 witness: the mean parameter vector satisfies the bounds, and the
theorem applies to it. -/
theorem total_angle_pos_and_turn_count_witness :
    InBounds meanParams ∧
      (0 < c_length meanParams ∧
        n_turns meanParams = c_length meanParams / (2 * Real.pi) ∧
        c_length meanParams =
          ((dotL (augParams meanParams) turns_vec : ℚ) : ℝ) / 360 * (2 * Real.pi)) :=
  ⟨by norm_num [InBounds, meanParams],
   total_angle_pos_and_turn_count meanParams (by norm_num [InBounds, meanParams])⟩

/-! ## Polynomial evaluation helpers -/

theorem polyval_append (cs : List ℝ) (c x : ℝ) :
    polyval (cs ++ [c]) x = polyval cs x * x + c := by
  simp [polyval, List.foldl_append]

theorem castList_reverse (l : List ℚ) : castList l.reverse = (castList l).reverse := by
  simp only [castList, List.map_reverse]

theorem specPolySum_cons (c : ℚ) (t : List ℚ) (x : ℝ) :
    specPolySum (c :: t) x = specPolySum t x * x + c := by
  simp only [specPolySum, List.length_cons]
  rw [Finset.sum_range_succ']
  simp only [List.getD_cons_succ, List.getD_cons_zero, pow_zero, mul_one, pow_succ]
  rw [Finset.sum_mul]
  rw [Finset.sum_congr rfl (fun i _ => by ring :
    ∀ i ∈ Finset.range t.length,
      ((t.getD i 0 : ℚ) : ℝ) * (x ^ i * x) = ((t.getD i 0 : ℚ) : ℝ) * x ^ i * x)]

theorem polyval_reverse (l : List ℚ) (x : ℝ) :
    polyval (castList l.reverse) x = specPolySum l x := by
  induction l with
  | nil => simp [polyval, castList, specPolySum]
  | cons c t ih =>
      have h1 : castList (c :: t).reverse = castList t.reverse ++ [(c : ℝ)] := by
        simp [castList]
      rw [h1, polyval_append, ih, specPolySum_cons]

theorem radius_poly_eq_spec (P : ShapeParams) (x : ℝ) :
    radius_modiolus_poly P x = specPolySum (radius_coeffs_low P) x := by
  unfold radius_modiolus_poly get_radius_coeffs
  exact polyval_reverse (radius_coeffs_low P) x

theorem height_poly_eq_spec (P : ShapeParams) (x : ℝ) :
    height_poly P x = specPolySum (height_coeffs_low P) x := by
  unfold height_poly get_height_coeffs
  exact polyval_reverse (height_coeffs_low P) x

/-! ## Sampling (np.arange) helpers -/

theorem arange_length (s step : ℝ) :
    (arange 0 s step).length = (⌈s / step⌉).toNat := by
  simp only [arange, List.length_map, List.length_range, sub_zero]

theorem arange_getD (s step : ℝ) (i : ℕ) (h : i < (arange 0 s step).length) :
    (arange 0 s step).getD i 0 = i * step := by
  have h' : i < (arange 0 s step).length := h
  rw [List.getD_eq_getElem _ _ h']
  simp only [arange, List.getElem_map, List.getElem_range, zero_add]

theorem arange_mem_lt (s step : ℝ) (hstep : 0 < step) :
    ∀ x ∈ arange 0 s step, x < s := by
  intro x hx
  simp only [arange, List.mem_map, List.mem_range] at hx
  obtain ⟨i, hi, rfl⟩ := hx
  have h1 : (i : ℤ) < ⌈(s - 0) / step⌉ := Int.lt_toNat.mp hi
  have h2 : (i : ℝ) < (s - 0) / step := by exact_mod_cast Int.lt_ceil.mp h1
  have h3 := (lt_div_iff₀ hstep).mp h2
  linarith

theorem arange_empty_of_neg (s step : ℝ) (hs : 0 < s) (hstep : step < 0) :
    arange 0 s step = [] := by
  have h1 : (s - 0) / step ≤ 0 := le_of_lt (div_neg_of_pos_of_neg (by linarith) hstep)
  have h2 : ⌈(s - 0) / step⌉ ≤ 0 := Int.ceil_le.mpr (by simpa using h1)
  unfold arange
  rw [Int.toNat_of_nonpos h2]
  simp

/-! ## C2 -/

/-- C2 (amended): get_point_at_position performs no range check on its
input; for every turn fraction t (inside or outside [0,1]) it returns
the point (r(phi) cos phi, r(phi) sin phi, h(phi)) with
phi = t * c_length, together with the radius, height, phi and turns
values, where r and h are the monomial-sum polynomials of the derived
coefficients. -/
theorem point_query_no_range_check (P : ShapeParams) (t : ℝ) :
    (get_point_at_position P t).phi = t * c_length P ∧
    (get_point_at_position P t).position =
      ⟨specPolySum (radius_coeffs_low P) (t * c_length P) * Real.cos (t * c_length P),
       specPolySum (radius_coeffs_low P) (t * c_length P) * Real.sin (t * c_length P),
       specPolySum (height_coeffs_low P) (t * c_length P)⟩ ∧
    (get_point_at_position P t).radius_modiolus =
      specPolySum (radius_coeffs_low P) (t * c_length P) ∧
    (get_point_at_position P t).height =
      specPolySum (height_coeffs_low P) (t * c_length P) ∧
    (get_point_at_position P t).turns = t * n_turns P := by
  refine ⟨rfl, ?_, ?_, ?_, ?_⟩
  · show (⟨radius_modiolus_poly P (t * c_length P) * Real.cos (t * c_length P),
      radius_modiolus_poly P (t * c_length P) * Real.sin (t * c_length P),
      height_poly P (t * c_length P)⟩ : Vec3) = _
    rw [radius_poly_eq_spec, height_poly_eq_spec]
  · exact radius_poly_eq_spec P (t * c_length P)
  · exact height_poly_eq_spec P (t * c_length P)
  · show t * c_length P / (2 * Real.pi) = t * n_turns P
    unfold n_turns
    ring

/-- C2 counterexample: at turn fraction 2, which is outside [0,1], the
point query does not fail: it returns a normal result whose phi is the
extrapolated 2 * c_length and whose turns value is twice the turn
estimate (about 5.37 turns). -/
theorem point_query_out_of_range_counterexample :
    ¬ ((0 : ℝ) ≤ 2 ∧ (2 : ℝ) ≤ 1) ∧
    (get_point_at_position meanParams 2).phi = 2 * c_length meanParams ∧
    (get_point_at_position meanParams 2).turns =
      2 * ((turn_number_estimation meanParams : ℚ) : ℝ) := by
  refine ⟨by norm_num, rfl, ?_⟩
  show 2 * c_length meanParams / (2 * Real.pi) = _
  unfold c_length
  field_simp
  ring

/-! ## C3 -/

/-- C3 (amended): generate_geometry performs no resolution validation
and raises no error for negative resolution: for every in-bounds
parameter vector and every resolution < 0 it returns a geometry whose
phi, centerline, scala, turns and r_modiolus lists are all empty. -/
theorem geometry_negative_resolution_empty (P : ShapeParams) (hb : InBounds P)
    (res : ℝ) (hres : res < 0) :
    (generate_geometry P res).phi = [] ∧
    (generate_geometry P res).centerline = [] ∧
    (generate_geometry P res).scala = [] ∧
    (generate_geometry P res).turns = [] ∧
    (generate_geometry P res).r_modiolus = [] := by
  have hphi : arange 0 (c_length P) res = [] :=
    arange_empty_of_neg _ _ (c_length_pos P hb) hres
  have hv : arange 0 (2 * Real.pi) res = [] :=
    arange_empty_of_neg _ _ (by positivity) hres
  unfold generate_geometry
  rw [hphi, hv]
  simp

/-- C3 witness: the theorem applied to the mean parameters and
resolution -1. -/
theorem geometry_negative_resolution_empty_witness :
    InBounds meanParams ∧ ((-1 : ℝ) < 0) ∧
    ((generate_geometry meanParams (-1)).phi = [] ∧
     (generate_geometry meanParams (-1)).centerline = [] ∧
     (generate_geometry meanParams (-1)).scala = [] ∧
     (generate_geometry meanParams (-1)).turns = [] ∧
     (generate_geometry meanParams (-1)).r_modiolus = []) :=
  ⟨by norm_num [InBounds, meanParams], by norm_num,
   geometry_negative_resolution_empty meanParams (by norm_num [InBounds, meanParams])
     (-1) (by norm_num)⟩

/-- C3 counterexample: at the negative resolution -1 (which is <= 0, so
the claim demands an InvalidResolutionError) generate_geometry returns
normally, with an empty sample list. -/
theorem geometry_negative_resolution_counterexample :
    ((-1 : ℝ) ≤ 0) ∧ (generate_geometry meanParams (-1)).phi = [] ∧
    (generate_geometry meanParams (-1)).centerline = [] := by
  have hb : InBounds meanParams := by norm_num [InBounds, meanParams]
  have hphi : arange 0 (c_length meanParams) (-1) = [] :=
    arange_empty_of_neg _ _ (c_length_pos meanParams hb) (by norm_num)
  refine ⟨by norm_num, ?_, ?_⟩
  · unfold generate_geometry
    rw [hphi]
  · unfold generate_geometry
    rw [hphi]
    simp

/-! ## C4 -/

theorem generate_geometry_phi (P : ShapeParams) (res : ℝ) :
    (generate_geometry P res).phi = arange 0 (c_length P) res := rfl

theorem generate_geometry_centerline (P : ShapeParams) (res : ℝ) :
    (generate_geometry P res).centerline =
      (arange 0 (c_length P) res).map (fun p =>
        (⟨radius_modiolus_poly P p * Real.cos p, radius_modiolus_poly P p * Real.sin p,
          height_poly P p⟩ : Vec3)) := rfl

theorem arange_getElem (s step : ℝ) (i : ℕ) (h : i < (arange 0 s step).length) :
    (arange 0 s step)[i] = (i : ℝ) * step := by
  rw [← List.getD_eq_getElem _ 0 h]
  exact arange_getD s step i h

/-- C4: for every in-bounds parameter vector and every resolution > 0,
generate_geometry samples phi at 0, res, 2 res, ... strictly below
c_length in ascending order, the sample list has exactly
ceil(c_length / res) entries (a nonnegative count), and centerline entry
i is (r(phi_i) cos phi_i, r(phi_i) sin phi_i, h(phi_i)). -/
theorem geometry_sampling_spec (P : ShapeParams) (hb : InBounds P)
    (res : ℝ) (hres : 0 < res) :
    (generate_geometry P res).phi.length = (⌈c_length P / res⌉).toNat ∧
    0 ≤ ⌈c_length P / res⌉ ∧
    (generate_geometry P res).centerline.length = (generate_geometry P res).phi.length ∧
    (∀ i, i < (generate_geometry P res).phi.length →
        (generate_geometry P res).phi.getD i 0 = (i : ℝ) * res) ∧
    (∀ i j, i < j → j < (generate_geometry P res).phi.length →
        (generate_geometry P res).phi.getD i 0 < (generate_geometry P res).phi.getD j 0) ∧
    (∀ x ∈ (generate_geometry P res).phi, x < c_length P) ∧
    (∀ i, i < (generate_geometry P res).phi.length →
        (generate_geometry P res).centerline.getD i ⟨0, 0, 0⟩ =
          ⟨specPolySum (radius_coeffs_low P) ((i : ℝ) * res) * Real.cos ((i : ℝ) * res),
           specPolySum (radius_coeffs_low P) ((i : ℝ) * res) * Real.sin ((i : ℝ) * res),
           specPolySum (height_coeffs_low P) ((i : ℝ) * res)⟩) := by
  have hlen : (generate_geometry P res).phi.length = (⌈c_length P / res⌉).toNat := by
    rw [generate_geometry_phi, arange_length]
  refine ⟨hlen, ?_, ?_, ?_, ?_, ?_, ?_⟩
  · exact Int.ceil_nonneg (le_of_lt (div_pos (c_length_pos P hb) hres))
  · rw [generate_geometry_centerline, List.length_map, generate_geometry_phi]
  · intro i hi
    rw [generate_geometry_phi] at hi ⊢
    exact arange_getD _ _ i hi
  · intro i j hij hj
    rw [generate_geometry_phi] at hj ⊢
    rw [arange_getD _ _ j hj, arange_getD _ _ i (lt_trans hij hj)]
    have : (i : ℝ) < (j : ℝ) := by exact_mod_cast hij
    exact mul_lt_mul_of_pos_right this hres
  · intro x hx
    rw [generate_geometry_phi] at hx
    exact arange_mem_lt _ _ hres x hx
  · intro i hi
    rw [generate_geometry_phi] at hi
    have hmap : i < ((arange 0 (c_length P) res).map (fun p =>
        (⟨radius_modiolus_poly P p * Real.cos p, radius_modiolus_poly P p * Real.sin p,
          height_poly P p⟩ : Vec3))).length := by
      rw [List.length_map]; exact hi
    rw [generate_geometry_centerline, List.getD_eq_getElem _ _ hmap, List.getElem_map,
      arange_getElem _ _ i hi, radius_poly_eq_spec, height_poly_eq_spec]

/-- C4 witness: the sample-count statement of the theorem at the mean
parameters and resolution 1. -/
theorem geometry_sampling_spec_witness :
    (generate_geometry meanParams 1).phi.length = (⌈c_length meanParams / 1⌉).toNat :=
  (geometry_sampling_spec meanParams (by norm_num [InBounds, meanParams]) 1 one_pos).1

/-! ## C5 -/

/-- C5: every code path computing a local tube radius (the scala surface
of generate_geometry, the half-curve cross-sections, and the export
path's frame-based cross-sections) uses
(c_length - phi)/c_length * 0.5 + 0.6, which is 1.1 at phi = 0, 0.6 at
phi = c_length, and strictly decreasing in phi. -/
theorem tube_radius_paths (P : ShapeParams) (hb : InBounds P) :
    (∀ res : ℝ, (generate_geometry P res).scala =
      (arange 0 (2 * Real.pi) res).map (fun ang => (generate_geometry P res).phi.map (fun p =>
        (⟨(radius_modiolus_poly P p + tubeRadiusSpec P p * (Real.cos ang - 1)) * Real.cos p,
          (radius_modiolus_poly P p + tubeRadiusSpec P p * (Real.cos ang - 1)) * Real.sin p,
          tubeRadiusSpec P p * Real.sin ang + height_poly P p⟩ : Vec3)))) ∧
    (∀ g n, ∀ sec ∈ generate_cross_sections P g n, sec.radius = tubeRadiusSpec P sec.phi) ∧
    (∀ g mode n, ∀ es ∈ export_cross_sections P g mode n,
      es.radius = tubeRadiusSpec P es.phi) ∧
    tubeRadiusSpec P 0 = 1.1 ∧
    tubeRadiusSpec P (c_length P) = 0.6 ∧
    (∀ a b : ℝ, a < b → tubeRadiusSpec P b < tubeRadiusSpec P a) := by
  have hc := c_length_pos P hb
  refine ⟨fun res => rfl, ?_, ?_, ?_, ?_, ?_⟩
  · intro g n sec hsec
    simp only [generate_cross_sections, List.mem_map] at hsec
    obtain ⟨idx, _, rfl⟩ := hsec
    rfl
  · intro g mode n es hes
    simp only [export_cross_sections, List.mem_map] at hes
    obtain ⟨pos, _, rfl⟩ := hes
    rfl
  · unfold tubeRadiusSpec
    rw [sub_zero, div_self (ne_of_gt hc)]
    norm_num
  · unfold tubeRadiusSpec
    rw [sub_self, zero_div]
    norm_num
  · intro a b hab
    unfold tubeRadiusSpec
    have h2 : (c_length P - b) / c_length P < (c_length P - a) / c_length P :=
      (div_lt_div_iff_of_pos_right hc).mpr (by linarith)
    linarith

/-- C5 witness: the base-value statement of the theorem at the mean
parameters. -/
theorem tube_radius_paths_witness : tubeRadiusSpec meanParams 0 = 1.1 :=
  (tube_radius_paths meanParams (by norm_num [InBounds, meanParams])).2.2.2.1

/-! ## C6 -/

theorem continuous_horner_foldl (cs : List ℝ) :
    ∀ f : ℝ → ℝ, Continuous f →
      Continuous (fun x => List.foldl (fun acc c => acc * x + c) (f x) cs) := by
  induction cs with
  | nil => intro f hf; simpa using hf
  | cons c t ih =>
      intro f hf
      have h1 : Continuous (fun x => f x * x + c) :=
        (hf.mul continuous_id).add continuous_const
      simpa [List.foldl] using ih (fun x => f x * x + c) h1

theorem continuous_polyval (cs : List ℝ) : Continuous (fun x => polyval cs x) := by
  simpa [polyval] using continuous_horner_foldl cs (fun _ => 0) continuous_const

theorem continuous_length_integrand (P : ShapeParams) (b : Bool) :
    Continuous (length_integrand P b) := by
  have hr : Continuous (fun z => polyval (castList (get_radius_coeffs P)) z) :=
    continuous_polyval _
  have hdr : Continuous (fun z => polyval (polyder (castList (get_radius_coeffs P))) z) :=
    continuous_polyval _
  have hdh : Continuous (fun z => polyval (polyder (castList (get_height_coeffs P))) z) :=
    continuous_polyval _
  have hx : Continuous (fun z =>
      polyval (polyder (castList (get_radius_coeffs P))) z * Real.cos z -
        polyval (castList (get_radius_coeffs P)) z * Real.sin z) :=
    (hdr.mul Real.continuous_cos).sub (hr.mul Real.continuous_sin)
  have hy : Continuous (fun z =>
      polyval (polyder (castList (get_radius_coeffs P))) z * Real.sin z +
        polyval (castList (get_radius_coeffs P)) z * Real.cos z) :=
    (hdr.mul Real.continuous_sin).add (hr.mul Real.continuous_cos)
  cases b with
  | false =>
      have : Continuous (fun z =>
          Real.sqrt ((polyval (polyder (castList (get_radius_coeffs P))) z * Real.cos z -
              polyval (castList (get_radius_coeffs P)) z * Real.sin z) ^ 2 +
            (polyval (polyder (castList (get_radius_coeffs P))) z * Real.sin z +
              polyval (castList (get_radius_coeffs P)) z * Real.cos z) ^ 2)) :=
        ((hx.pow 2).add (hy.pow 2)).sqrt
      simpa [length_integrand, radius_modiolus_poly] using this
  | true =>
      have : Continuous (fun z =>
          Real.sqrt ((polyval (polyder (castList (get_radius_coeffs P))) z * Real.cos z -
              polyval (castList (get_radius_coeffs P)) z * Real.sin z) ^ 2 +
            (polyval (polyder (castList (get_radius_coeffs P))) z * Real.sin z +
              polyval (castList (get_radius_coeffs P)) z * Real.cos z) ^ 2 +
            (polyval (polyder (castList (get_height_coeffs P))) z) ^ 2)) :=
        (((hx.pow 2).add (hy.pow 2)).add (hdh.pow 2)).sqrt
      simpa [length_integrand, radius_modiolus_poly] using this

/-- C6: the arc length computed with the height term is at least the
arc length computed without it, for every in-bounds parameter vector
with a non-constant height polynomial (the integrand with the extra
squared derivative term dominates pointwise). -/
theorem arc_length_height_ge (P : ShapeParams) (hb : InBounds P)
    (hh : heightNonConstant P) :
    calculate_length P false ≤ calculate_length P true := by
  have hc : (0 : ℝ) ≤ c_length P := le_of_lt (c_length_pos P hb)
  have hint_false : IntervalIntegrable (length_integrand P false)
      MeasureTheory.volume 0 (c_length P) :=
    (continuous_length_integrand P false).intervalIntegrable 0 (c_length P)
  have hint_true : IntervalIntegrable (length_integrand P true)
      MeasureTheory.volume 0 (c_length P) :=
    (continuous_length_integrand P true).intervalIntegrable 0 (c_length P)
  have hmono : ∀ z ∈ Set.Icc (0 : ℝ) (c_length P),
      length_integrand P false z ≤ length_integrand P true z := by
    intro z _
    unfold length_integrand
    simp only [if_true, if_false, Bool.false_eq_true, ite_false, ite_true]
    apply Real.sqrt_le_sqrt
    nlinarith [sq_nonneg (polyval (polyder (castList (get_height_coeffs P))) z)]
  exact intervalIntegral.integral_mono_on hc hint_false hint_true hmono

/-- C6 witness: the theorem applied to the mean parameters, whose height
polynomial has a nonzero linear coefficient. -/
theorem arc_length_height_ge_witness :
    calculate_length meanParams false ≤ calculate_length meanParams true :=
  arc_length_height_ge meanParams (by norm_num [InBounds, meanParams])
    ⟨1, le_refl 1, by norm_num,
      by norm_num [height_coeffs_low, dotL, augParams, tableCol, height_table, meanParams,
        List.range_succ]⟩

/-! ## C7 -/

theorem dot3_comm (a b : Vec3) : dot3 a b = dot3 b a := by
  unfold dot3; ring

theorem dot3_cross_left (a b : Vec3) : dot3 (cross3 a b) a = 0 := by
  unfold dot3 cross3; ring

theorem dot3_cross_right (a b : Vec3) : dot3 (cross3 a b) b = 0 := by
  unfold dot3 cross3; ring

theorem cross3_sq_sum (a b : Vec3) :
    (cross3 a b).x ^ 2 + (cross3 a b).y ^ 2 + (cross3 a b).z ^ 2 =
      (a.x ^ 2 + a.y ^ 2 + a.z ^ 2) * (b.x ^ 2 + b.y ^ 2 + b.z ^ 2) - dot3 a b ^ 2 := by
  unfold cross3 dot3; ring

theorem sq_norm3 (v : Vec3) : norm3 v ^ 2 = v.x ^ 2 + v.y ^ 2 + v.z ^ 2 :=
  Real.sq_sqrt (by positivity)

theorem norm3_normalize3 (w : Vec3) (hw : w.x ^ 2 + w.y ^ 2 + w.z ^ 2 ≠ 0) :
    norm3 (normalize3 w) = 1 := by
  have hpos : 0 < w.x ^ 2 + w.y ^ 2 + w.z ^ 2 :=
    lt_of_le_of_ne (by positivity) (Ne.symm hw)
  have hs : 0 < Real.sqrt (w.x ^ 2 + w.y ^ 2 + w.z ^ 2) := Real.sqrt_pos.mpr hpos
  have hsq : Real.sqrt (w.x ^ 2 + w.y ^ 2 + w.z ^ 2) ^ 2 = w.x ^ 2 + w.y ^ 2 + w.z ^ 2 :=
    Real.sq_sqrt hpos.le
  unfold normalize3 norm3
  rw [div_pow, div_pow, div_pow, div_add_div_same, div_add_div_same]
  rw [hsq, div_self hw, Real.sqrt_one]

theorem dot3_normalize3_right (u w : Vec3) : dot3 u (normalize3 w) = dot3 u w / norm3 w := by
  unfold dot3 normalize3; ring

theorem perp_frame_ok (t a : Vec3) (ht : norm3 t = 1)
    (hS : (cross3 a t).x ^ 2 + (cross3 a t).y ^ 2 + (cross3 a t).z ^ 2 ≠ 0) :
    norm3 (normalize3 (cross3 a t)) = 1 ∧
    norm3 (normalize3 (cross3 t (normalize3 (cross3 a t)))) = 1 ∧
    dot3 t (normalize3 (cross3 a t)) = 0 ∧
    dot3 t (normalize3 (cross3 t (normalize3 (cross3 a t)))) = 0 ∧
    dot3 (normalize3 (cross3 a t)) (normalize3 (cross3 t (normalize3 (cross3 a t)))) = 0 := by
  have hSt : t.x ^ 2 + t.y ^ 2 + t.z ^ 2 = 1 := by
    rw [← sq_norm3 t, ht]; norm_num
  have h1 : norm3 (normalize3 (cross3 a t)) = 1 := norm3_normalize3 _ hS
  have hp1S : (normalize3 (cross3 a t)).x ^ 2 + (normalize3 (cross3 a t)).y ^ 2 +
      (normalize3 (cross3 a t)).z ^ 2 = 1 := by
    rw [← sq_norm3 (normalize3 (cross3 a t)), h1]; norm_num
  have hdot_t_p1 : dot3 t (normalize3 (cross3 a t)) = 0 := by
    rw [dot3_normalize3_right]
    rw [dot3_comm, dot3_cross_right, zero_div]
  have hSu : (cross3 t (normalize3 (cross3 a t))).x ^ 2 +
      (cross3 t (normalize3 (cross3 a t))).y ^ 2 +
      (cross3 t (normalize3 (cross3 a t))).z ^ 2 = 1 := by
    rw [cross3_sq_sum, hSt, hp1S, hdot_t_p1]
    norm_num
  have h2 : norm3 (normalize3 (cross3 t (normalize3 (cross3 a t)))) = 1 :=
    norm3_normalize3 _ (by rw [hSu]; norm_num)
  have hdot_t_p2 : dot3 t (normalize3 (cross3 t (normalize3 (cross3 a t)))) = 0 := by
    rw [dot3_normalize3_right, dot3_comm, dot3_cross_left, zero_div]
  have hdot_p1_p2 : dot3 (normalize3 (cross3 a t))
      (normalize3 (cross3 t (normalize3 (cross3 a t)))) = 0 := by
    rw [dot3_normalize3_right, dot3_comm, dot3_cross_right, zero_div]
  exact ⟨h1, h2, hdot_t_p1, hdot_t_p2, hdot_p1_p2⟩

/-- C7: for every unit tangent vector (in particular with any
z-component magnitude around the 0.9 branch threshold), the export
path's frame construction produces perp1 and perp2 that are unit-length
and orthogonal to the tangent (and to each other), exactly. -/
theorem frame_orthonormal (t : Vec3) (ht : norm3 t = 1) :
    norm3 (make_perpendiculars t).1 = 1 ∧ norm3 (make_perpendiculars t).2 = 1 ∧
    dot3 t (make_perpendiculars t).1 = 0 ∧ dot3 t (make_perpendiculars t).2 = 0 ∧
    dot3 (make_perpendiculars t).1 (make_perpendiculars t).2 = 0 := by
  have hSt : t.x ^ 2 + t.y ^ 2 + t.z ^ 2 = 1 := by
    rw [← sq_norm3 t, ht]; norm_num
  by_cases h : |t.z| < 0.9
  · have hmp : make_perpendiculars t =
        (normalize3 (cross3 ⟨0, 0, 1⟩ t),
         normalize3 (cross3 t (normalize3 (cross3 ⟨0, 0, 1⟩ t)))) := by
      unfold make_perpendiculars
      rw [if_pos h]
    have hS : (cross3 ⟨0, 0, 1⟩ t).x ^ 2 + (cross3 ⟨0, 0, 1⟩ t).y ^ 2 +
        (cross3 ⟨0, 0, 1⟩ t).z ^ 2 ≠ 0 := by
      unfold cross3
      simp only
      have hz : |t.z| ^ 2 < 0.81 := by nlinarith [abs_nonneg t.z]
      rw [sq_abs] at hz
      nlinarith
    rw [hmp]
    exact perp_frame_ok t ⟨0, 0, 1⟩ ht hS
  · have hmp : make_perpendiculars t =
        (normalize3 (cross3 ⟨1, 0, 0⟩ t),
         normalize3 (cross3 t (normalize3 (cross3 ⟨1, 0, 0⟩ t)))) := by
      unfold make_perpendiculars
      rw [if_neg h]
    have hz : (0.81 : ℝ) ≤ t.z ^ 2 := by
      have h9 : (0.9 : ℝ) ≤ |t.z| := le_of_not_lt h
      nlinarith [abs_nonneg t.z, sq_abs t.z]
    have hS : (cross3 ⟨1, 0, 0⟩ t).x ^ 2 + (cross3 ⟨1, 0, 0⟩ t).y ^ 2 +
        (cross3 ⟨1, 0, 0⟩ t).z ^ 2 ≠ 0 := by
      unfold cross3
      simp only
      nlinarith
    rw [hmp]
    exact perp_frame_ok t ⟨1, 0, 0⟩ ht hS

/-- C7 witness: the vertical unit tangent (z-component magnitude 1.0,
above the 0.9 threshold) gets a unit first perpendicular. -/
theorem frame_orthonormal_witness :
    norm3 (make_perpendiculars ⟨0, 0, 1⟩).1 = 1 :=
  (frame_orthonormal ⟨0, 0, 1⟩
    (by unfold norm3; simp only; rw [show (0:ℝ)^2 + 0^2 + 1^2 = 1 by norm_num, Real.sqrt_one])).1

/-! ## C8 -/

theorem ofDigits_replicate_zero (k : ℕ) : Nat.ofDigits 10 (List.replicate k 0) = 0 := by
  induction k with
  | zero => simp [Nat.ofDigits]
  | succ m ih => simp [List.replicate_succ, Nat.ofDigits_cons, ih]

theorem round_nonneg_rat (q : ℚ) (hq : 0 ≤ q) : (0 : ℤ) ≤ round q := by
  rw [round_eq]
  exact Int.floor_nonneg.mpr (by linarith)

theorem readValue_writeFixed6 (q : ℚ) (hq : 0 ≤ q) :
    readValue (writeFixed6 q) = some (round6 q) := by
  have habs : |q| = q := abs_of_nonneg hq
  have hx : (0 : ℚ) ≤ q * 1000000 := by positivity
  have hr0 : (0 : ℤ) ≤ round (q * 1000000) := round_nonneg_rat _ hx
  unfold writeFixed6 readValue
  rw [habs]
  rw [decide_eq_false (not_lt.mpr hq)]
  simp only [Bool.false_eq_true, if_false, Option.some_inj]
  rw [Nat.ofDigits_append, Nat.ofDigits_digits, Nat.ofDigits_digits,
    ofDigits_replicate_zero]
  have hdm := Nat.div_add_mod ((round (q * 1000000)).toNat) 1000000
  have hcast : (((round (q * 1000000)).toNat : ℤ) : ℚ) = ((round (q * 1000000) : ℤ) : ℚ) := by
    rw [Int.toNat_of_nonneg hr0]
  unfold round6
  have h10 : ((1000000 : ℕ) : ℚ) ≠ 0 := by norm_num
  field_simp
  push_cast at hcast
  nlinarith [hdm, hcast, (by exact_mod_cast congrArg (fun m : ℕ => (m : ℚ)) hdm :
    (1000000 : ℚ) * (((round (q * 1000000)).toNat / 1000000 : ℕ) : ℚ) +
      (((round (q * 1000000)).toNat % 1000000 : ℕ) : ℚ) =
      (((round (q * 1000000)).toNat : ℕ) : ℚ))]

theorem round6_close (q : ℚ) : |round6 q - q| ≤ 1 / 2000000 := by
  have h := abs_sub_round (q * 1000000)
  have heq : round6 q - q = ((round (q * 1000000) : ℤ) - q * 1000000) / 1000000 := by
    unfold round6
    ring
  have h2 : |((round (q * 1000000) : ℤ) : ℚ) - q * 1000000| ≤ 1 / 2 := by
    rw [abs_sub_comm]; exact h
  rw [heq, abs_div]
  rw [abs_of_pos (by norm_num : (0:ℚ) < 1000000)]
  rw [div_le_div_iff₀ (by norm_num) (by norm_num)]
  nlinarith [h2]

/-- C8: saving an in-bounds parameter vector and loading it back yields
exactly the four values rounded to the written six-decimal precision,
in the same order, and each written value is within half an ulp
(1/2000000) of the original. -/
theorem save_load_roundtrip (P : ShapeParams) (hb : InBounds P) :
    load_parameters (save_parameters [P.A1, P.B1, P.A2, P.B2]) =
      [round6 P.A1, round6 P.B1, round6 P.A2, round6 P.B2] ∧
    ∀ q ∈ [P.A1, P.B1, P.A2, P.B2], |round6 q - q| ≤ 1 / 2000000 := by
  obtain ⟨h1, _, h3, _, h5, _, h7, _⟩ := hb
  have p1 : (0 : ℚ) ≤ P.A1 := by linarith
  have p2 : (0 : ℚ) ≤ P.B1 := by linarith
  have p3 : (0 : ℚ) ≤ P.A2 := by linarith
  have p4 : (0 : ℚ) ≤ P.B2 := by linarith
  constructor
  · have hcomment : readValue (FileLine.comment "A1, B1, A2, B2") = none := rfl
    simp only [save_parameters, load_parameters, List.map_cons, List.map_nil,
      List.filterMap_cons, hcomment, readValue_writeFixed6 P.A1 p1,
      readValue_writeFixed6 P.B1 p2, readValue_writeFixed6 P.A2 p3,
      readValue_writeFixed6 P.B2 p4, List.filterMap_nil]
  · intro q _
    exact round6_close q

/-- C8 witness: the theorem applied to the mean parameter vector. -/
theorem save_load_roundtrip_witness :
    load_parameters (save_parameters
        [meanParams.A1, meanParams.B1, meanParams.A2, meanParams.B2]) =
      [round6 meanParams.A1, round6 meanParams.B1, round6 meanParams.A2,
        round6 meanParams.B2] :=
  (save_load_roundtrip meanParams (by norm_num [InBounds, meanParams])).1

/-! ## C9 and C10 -/

theorem checkBounds_ok_true (l : List ((String × ℚ × ℚ) × ℚ)) (b : Bool)
    (h : checkBounds l = Except.ok b) : b = true := by
  induction l with
  | nil => simpa [checkBounds] using h.symm
  | cons hd tl ih =>
      obtain ⟨⟨nm, lo, hi⟩, v⟩ := hd
      rw [checkBounds] at h
      split_ifs at h
      exact ih h

theorem validate_ok_iff (p : List ℚ) :
    validate_parameters p = Except.ok true ↔ inBoundsList p := by
  rcases p with _ | ⟨a, _ | ⟨b, _ | ⟨c, _ | ⟨d, _ | ⟨e, rest⟩⟩⟩⟩⟩
  · simp [validate_parameters, inBoundsList]
  · simp [validate_parameters, inBoundsList]
  · simp [validate_parameters, inBoundsList]
  · simp [validate_parameters, inBoundsList]
  · simp only [validate_parameters, List.length_cons, List.length_nil, inBoundsList]
    norm_num [paramBounds, checkBounds]
    split_ifs <;> simp_all
  · simp only [validate_parameters, List.length_cons, inBoundsList]
    constructor
    · intro h
      split_ifs at h with hlen
      · omega
    · intro h
      omega

theorem validate_error_msg (p : List ℚ) (hlen : p.length = 4) (hout : ¬ inBoundsList p) :
    ∃ nm lo hi v, (nm, lo, hi) ∈ paramBounds ∧ v ∈ p ∧ ¬ (lo ≤ v ∧ v ≤ hi) ∧
      validate_parameters p = Except.error (boundsMsg nm v lo hi) := by
  rcases p with _ | ⟨a, _ | ⟨b, _ | ⟨c, _ | ⟨d, _ | ⟨e, rest⟩⟩⟩⟩⟩
  · simp only [List.length_nil] at hlen; omega
  · simp only [List.length_cons, List.length_nil] at hlen; omega
  · simp only [List.length_cons, List.length_nil] at hlen; omega
  · simp only [List.length_cons, List.length_nil] at hlen; omega
  · have hv : validate_parameters [a, b, c, d] =
        checkBounds [(("A1", 4.0, 8.0), a), (("B1", 2.5, 5.5), b),
          (("A2", 2.0, 4.5), c), (("B2", 1.5, 4.0), d)] := by
      simp [validate_parameters, paramBounds]
    by_cases ha : (4.0 : ℚ) ≤ a ∧ a ≤ 8.0
    · by_cases hb2 : (2.5 : ℚ) ≤ b ∧ b ≤ 5.5
      · by_cases hc2 : (2.0 : ℚ) ≤ c ∧ c ≤ 4.5
        · by_cases hd2 : (1.5 : ℚ) ≤ d ∧ d ≤ 4.0
          · exfalso
            apply hout
            obtain ⟨ha1, ha2⟩ := ha
            obtain ⟨hb1, hb2b⟩ := hb2
            obtain ⟨hc1, hc2b⟩ := hc2
            obtain ⟨hd1, hd2b⟩ := hd2
            refine ⟨rfl, ?_, ?_, ?_, ?_, ?_, ?_, ?_, ?_⟩ <;>
              simp only [List.getD_cons_zero, List.getD_cons_succ] <;>
              linarith [ha1, ha2, hb1, hb2b, hc1, hc2b, hd1, hd2b]
          · refine ⟨"B2", 1.5, 4.0, d, by simp [paramBounds], by simp, hd2, ?_⟩
            rw [hv]
            simp only [checkBounds]
            rw [if_pos ha, if_pos hb2, if_pos hc2, if_neg hd2]
        · refine ⟨"A2", 2.0, 4.5, c, by simp [paramBounds], by simp, hc2, ?_⟩
          rw [hv]
          simp only [checkBounds]
          rw [if_pos ha, if_pos hb2, if_neg hc2]
      · refine ⟨"B1", 2.5, 5.5, b, by simp [paramBounds], by simp, hb2, ?_⟩
        rw [hv]
        simp only [checkBounds]
        rw [if_pos ha, if_neg hb2]
    · refine ⟨"A1", 4.0, 8.0, a, by simp [paramBounds], by simp, ha, ?_⟩
      rw [hv]
      simp only [checkBounds]
      rw [if_neg ha]
  · simp only [List.length_cons, List.length_nil] at hlen; omega

/-- C10: validate_parameters returns True exactly when given exactly 4
values all inside their anatomical ranges, endpoints included; a wrong
arity raises the arity message, and an out-of-range value raises an
error built from the offending field name, the value and its bounds. -/
theorem validate_iff_bounds :
    ∀ p : List ℚ,
      (validate_parameters p = Except.ok true ↔ inBoundsList p) ∧
      (p.length ≠ 4 →
        validate_parameters p = Except.error "Parameters must be a 4-element array") ∧
      (p.length = 4 → ¬ inBoundsList p →
        ∃ nm lo hi v, (nm, lo, hi) ∈ paramBounds ∧ v ∈ p ∧ ¬ (lo ≤ v ∧ v ≤ hi) ∧
          validate_parameters p = Except.error (boundsMsg nm v lo hi)) := by
  intro p
  refine ⟨validate_ok_iff p, ?_, validate_error_msg p⟩
  intro hlen
  unfold validate_parameters
  rw [if_pos hlen]

/-- C10 witness: the lower boundary vector (4.0, 2.5, 2.0, 1.5) is
accepted, through the iff of the theorem. -/
theorem validate_iff_bounds_witness :
    validate_parameters [(4 : ℚ), 2.5, 2, 1.5] = Except.ok true :=
  (validate_iff_bounds [(4 : ℚ), 2.5, 2, 1.5]).1.mpr
    (by refine ⟨rfl, ?_, ?_, ?_, ?_, ?_, ?_, ?_, ?_⟩ <;>
      simp only [List.getD_cons_zero, List.getD_cons_succ] <;> norm_num)

/-- C9: a model built with parameters=None in random mode uses the
drawn vector without any bounds validation (construction always
succeeds, and some draws give out-of-bounds parameters), while an
explicit parameter vector is validated and accepted only inside
bounds. -/
theorem init_validation_only_explicit :
    (∀ g : ℕ → ℚ, cochlea_model_init none "mean" g =
      Except.ok [5.97, 3.95, 3.26, 2.85]) ∧
    (∀ g : ℕ → ℚ, cochlea_model_init none "random" g =
      Except.ok ((List.range 4).map
        (fun i => paramMeans.getD i 0 + paramStds.getD i 0 * g i))) ∧
    (∃ g : ℕ → ℚ, ∃ A, cochlea_model_init none "random" g = Except.ok A ∧
      ¬ inBoundsList A) ∧
    (∀ p mode g A, cochlea_model_init (some p) mode g = Except.ok A →
      A = p ∧ inBoundsList p) := by
  have hrand : ∀ g : ℕ → ℚ, cochlea_model_init none "random" g =
      Except.ok ((List.range 4).map
        (fun i => paramMeans.getD i 0 + paramStds.getD i 0 * g i)) := by
    intro g
    simp [cochlea_model_init, generate_parameters]
  refine ⟨fun g => by simp [cochlea_model_init, generate_parameters], hrand, ?_, ?_⟩
  · refine ⟨fun _ => -20, _, hrand (fun _ => -20), ?_⟩
    have hlist : (List.range 4).map
        (fun i => paramMeans.getD i 0 + paramStds.getD i 0 * (fun _ : ℕ => (-20 : ℚ)) i) =
        [5.97 + 0.36 * (-20), 3.95 + 0.35 * (-20), 3.26 + 0.28 * (-20),
          2.85 + 0.33 * (-20)] := by
      simp [List.range_succ, paramMeans, paramStds]
    rw [hlist]
    intro hin
    obtain ⟨-, h1, -⟩ := hin
    simp only [List.getD_cons_zero] at h1
    norm_num at h1
  · intro p mode g A h
    rw [show cochlea_model_init (some p) mode g =
        Except.map (fun _ => p) (validate_parameters p) from rfl] at h
    cases hval : validate_parameters p with
    | error e => rw [hval] at h; simp [Except.map] at h
    | ok b =>
        have hb : b = true := checkBounds_ok_true _ _ (by
          by_cases hlen : p.length ≠ 4
          · exfalso
            unfold validate_parameters at hval
            rw [if_pos hlen] at hval
            simp at hval
          · unfold validate_parameters at hval
            rw [if_neg hlen] at hval
            exact hval)
        subst hb
        rw [hval] at h
        simp only [Except.map] at h
        refine ⟨by injection h with h2; exact h2.symm, ?_⟩
        exact (validate_ok_iff p).mp hval
